import Mathlib

/-!
Shallow embedding of the transport core of the pika message-passing library:
the two ring-buffer engines (`RingBufferLockProtected`, `RingBufferLockFree`),
the channel-header rendezvous (`PrepareHeader`, `GetRingBufferSlotsOffset`)
and the timed mutex (`Mutex::LockTimed`), together with theorems checking the
specification claims about them.

Machine integers (`uint64_t`) are modelled as `Nat` with explicit `% n` where
the source reduces modulo a queue length; byte buffers are `List Nat`;
fallible operations return `Option`/pairs with an error component.
-/

namespace Pika

/-- Error kinds: `PikaErrorType` from `error.hpp` (lines 42-49). -/
inductive PikaErrorType
  | Unknown
  | SharedBufferError
  | SyncPrimitiveError
  | RingBufferError
  | ChannelError
  | Timeout
deriving DecidableEq, Repr

/-! ### Generic cyclic-slot-region helpers

Both engines store records in a flat slot array and address it through
indices reduced modulo the (internal) queue length.  `cyc slots sz n start
cnt` is the list of the `cnt` records currently queued, read from slot
`start` onwards (mod `n`); each record is the `sz` bytes `memcpy` would copy
out of its slot. -/

/-- The record bytes held in slot `i` (`getBufferSlot`: `m_ring_buffer +
i * m_element_size_in_bytes`), as the `sz` bytes a `memcpy` of
`m_element_size_in_bytes` reads. -/
def slotBytes (slots : List (List Nat)) (sz i : Nat) : List Nat :=
  (slots[i]?.getD []).take sz

/-- Abstract contents of a cyclic slot region: `cnt` records starting at
slot `start` (mod `n`). -/
def cyc (slots : List (List Nat)) (sz n start cnt : Nat) : List (List Nat) :=
  (List.range cnt).map (fun i => slotBytes slots sz ((start + i) % n))

theorem cyc_length (slots : List (List Nat)) (sz n start cnt : Nat) :
    (cyc slots sz n start cnt).length = cnt := by
  simp [cyc]

/-- Splitting a modulus: for `d < 2 * n`, `d % n` is `d` or `d - n`. -/
theorem mod_of_lt_two_mul {d n : Nat} (hn : 0 < n) (h : d < 2 * n) :
    d % n = if d < n then d else d - n := by
  by_cases hd : d < n
  · simp [hd, Nat.mod_eq_of_lt hd]
  · have h1 : n ≤ d := Nat.le_of_not_lt hd
    have h2 : d - n < n := by omega
    simp [hd, Nat.mod_eq_sub_mod h1, Nat.mod_eq_of_lt h2]

/-- Writing a fresh record into the slot just past the current contents
appends it to the abstract queue. -/
theorem cyc_enqueue (slots : List (List Nat)) (sz n start cnt : Nat) (r : List Nat)
    (hlen : slots.length = n) (hcnt : cnt < n) :
    cyc (slots.set ((start + cnt) % n) (r.take sz)) sz n start (cnt + 1)
      = cyc slots sz n start cnt ++ [r.take sz] := by
  have hn : 0 < n := by omega
  unfold cyc
  rw [List.range_succ, List.map_append]
  congr 1
  · apply List.map_congr_left
    intro i hi
    have hi' : i < cnt := List.mem_range.mp hi
    have hne : (start + i) % n ≠ (start + cnt) % n := by
      intro he
      have hmod : i % n = cnt % n := Nat.ModEq.add_left_cancel' start he
      rw [Nat.mod_eq_of_lt (lt_trans hi' hcnt), Nat.mod_eq_of_lt hcnt] at hmod
      omega
    simp only [slotBytes]
    rw [List.getElem?_set_ne (Ne.symm hne)]
  · simp only [List.map_cons, List.map_nil, slotBytes]
    have hidx : (start + cnt) % n < slots.length := by
      rw [hlen]; exact Nat.mod_lt _ hn
    rw [List.getElem?_set_self hidx]
    simp [List.take_take]

/-- Reading the front slot removes the head of the abstract queue. -/
theorem cyc_dequeue (slots : List (List Nat)) (sz n start cnt : Nat) :
    cyc slots sz n start (cnt + 1)
      = slotBytes slots sz (start % n) :: cyc slots sz n (start + 1) cnt := by
  unfold cyc
  rw [List.range_succ_eq_map, List.map_cons, List.map_map]
  refine congrArg₂ List.cons ?_ ?_
  · norm_num
  · apply List.map_congr_left
    intro i _
    simp only [Function.comp_apply]
    have h : start + (i + 1) = start + 1 + i := by omega
    rw [h]

/-- The starting index of a cyclic region may be reduced modulo `n`. -/
theorem cyc_start_mod (slots : List (List Nat)) (sz n start cnt : Nat) :
    cyc slots sz n (start % n) cnt = cyc slots sz n start cnt := by
  unfold cyc
  apply List.map_congr_left
  intro i _
  rw [Nat.mod_add_mod]

/-! ### Locked (MPMC) ring-buffer engine

`RingBufferLockProtected` from `ring_buffer.cpp` / `ring_buffer.hpp`: fields
`write_index`, `read_index`, `count`, `m_queue_length`,
`m_element_size_in_bytes`, and the slot region `m_ring_buffer`.  The mutex
and the two condition variables serialize `Put`/`Get`; in this sequential
embedding an operation is a single atomic step that completes exactly when
its wait-predicate holds (`Wait` re-checks the predicate until it is true),
and a blocked operation is `none`. -/

structure LockedState where
  queueLength : Nat
  elementSize : Nat
  writeIndex : Nat
  readIndex : Nat
  count : Nat
  slots : List (List Nat)
deriving DecidableEq, Repr

/-- Embeds `RingBufferLockProtected::initialize` (ring_buffer.cpp 32-67): store the
parameters; indices and count start at zero (in-class initializers).  The
slot region is fresh zeroed storage of `number_of_elements` slots. -/
def lockedInit (q sz : Nat) : LockedState :=
  { queueLength := q, elementSize := sz, writeIndex := 0, readIndex := 0,
    count := 0, slots := List.replicate q (List.replicate sz 0) }

/-- Embeds `RingBufferLockProtected::Put` (ring_buffer.cpp 69-86): wait until
`count < m_queue_length`, `memcpy` `m_element_size_in_bytes` bytes of
`element` into slot `write_index`, `write_index = (write_index+1) %
m_queue_length`, `++count`.  `none` when the queue is full (the wait
blocks). -/
def lockedPut (s : LockedState) (element : List Nat) : Option LockedState :=
  if s.count < s.queueLength then
    some { s with
      slots := s.slots.set s.writeIndex (element.take s.elementSize),
      writeIndex := (s.writeIndex + 1) % s.queueLength,
      count := s.count + 1 }
  else none

/-- Embeds `RingBufferLockProtected::Get` (ring_buffer.cpp 88-104): wait until
`count != 0`, `memcpy` out of slot `read_index`, `read_index =
(read_index+1) % m_queue_length`, `--count`.  `none` when empty. -/
def lockedGet (s : LockedState) : Option (LockedState × List Nat) :=
  if s.count ≠ 0 then
    some ({ s with
        readIndex := (s.readIndex + 1) % s.queueLength,
        count := s.count - 1 },
      slotBytes s.slots s.elementSize s.readIndex)
  else none

/-- Records currently queued, oldest first. -/
def lockedContents (s : LockedState) : List (List Nat) :=
  cyc s.slots s.elementSize s.queueLength s.readIndex s.count

/-- Structural invariant of the locked engine established by `initialize`
and preserved by `Put`/`Get`. -/
def LockedInv (s : LockedState) : Prop :=
  s.slots.length = s.queueLength ∧ s.count ≤ s.queueLength ∧
    s.readIndex < s.queueLength ∧
    s.writeIndex = (s.readIndex + s.count) % s.queueLength

theorem lockedInit_inv {q sz : Nat} (hq : 0 < q) : LockedInv (lockedInit q sz) := by
  refine ⟨List.length_replicate _ _, Nat.zero_le _, hq, ?_⟩
  simp [lockedInit, Nat.mod_eq_of_lt hq]

theorem lockedPut_inv {s t : LockedState} {r : List Nat}
    (hs : LockedInv s) (h : lockedPut s r = some t) :
    LockedInv t ∧ lockedContents t = lockedContents s ++ [r.take s.elementSize] ∧
      t.queueLength = s.queueLength ∧ t.elementSize = s.elementSize := by
  obtain ⟨hlen, hcnt, hread, hwrite⟩ := hs
  unfold lockedPut at h
  split at h
  case isFalse => exact absurd h (by simp)
  case isTrue hfull =>
  injection h with h
  subst h
  refine ⟨⟨?_, ?_, ?_, ?_⟩, ?_, rfl, rfl⟩
  · simpa using hlen
  · simpa using hfull
  · simpa using hread
  · show (s.writeIndex + 1) % s.queueLength
      = (s.readIndex + (s.count + 1)) % s.queueLength
    rw [hwrite, Nat.mod_add_mod, Nat.add_assoc]
  · show cyc (s.slots.set s.writeIndex (r.take s.elementSize)) s.elementSize
        s.queueLength s.readIndex (s.count + 1)
      = cyc s.slots s.elementSize s.queueLength s.readIndex s.count
        ++ [r.take s.elementSize]
    rw [hwrite]
    exact cyc_enqueue s.slots s.elementSize s.queueLength s.readIndex s.count r hlen hfull

theorem lockedGet_inv {s t : LockedState} {r : List Nat}
    (hs : LockedInv s) (h : lockedGet s = some (t, r)) :
    LockedInv t ∧ lockedContents s = r :: lockedContents t ∧
      t.queueLength = s.queueLength ∧ t.elementSize = s.elementSize := by
  obtain ⟨hlen, hcnt, hread, hwrite⟩ := hs
  unfold lockedGet at h
  split at h
  case isFalse => exact absurd h (by simp)
  case isTrue hempty =>
  injection h with h
  have ht := congrArg Prod.fst h
  have hr := congrArg Prod.snd h
  simp only at ht hr
  subst ht hr
  have hq : 0 < s.queueLength := by omega
  refine ⟨⟨?_, ?_, ?_, ?_⟩, ?_, rfl, rfl⟩
  · simpa using hlen
  · show s.count - 1 ≤ s.queueLength
    omega
  · show (s.readIndex + 1) % s.queueLength < s.queueLength
    exact Nat.mod_lt _ hq
  · show s.writeIndex = ((s.readIndex + 1) % s.queueLength + (s.count - 1)) % s.queueLength
    rw [hwrite, Nat.mod_add_mod]
    congr 1
    omega
  · show cyc s.slots s.elementSize s.queueLength s.readIndex s.count
      = slotBytes s.slots s.elementSize s.readIndex
        :: cyc s.slots s.elementSize s.queueLength
          ((s.readIndex + 1) % s.queueLength) (s.count - 1)
    obtain ⟨c, hc⟩ : ∃ c, s.count = c + 1 := ⟨s.count - 1, by omega⟩
    rw [hc]
    have hdq := cyc_dequeue s.slots s.elementSize s.queueLength s.readIndex c
    rw [Nat.mod_eq_of_lt hread] at hdq
    rw [hdq]
    simp only [Nat.add_sub_cancel]
    rw [cyc_start_mod]

/-! ### Operation traces

A single-producer / single-consumer history is a sequence of `Put` and `Get`
calls.  `runOps` executes them sequentially (the locked engine serializes
all operations through its mutex; the lock-free engine orders the completed
operations through the release/acquire pair on `head`/`tail`), collecting
the records returned by the `Get`s; it is `none` if some call blocks and
never completes. -/

inductive Op
  | put : List Nat → Op
  | get : Op
deriving DecidableEq, Repr

/-- Run a sequence of operations with the given put/get step functions. -/
def runOps (putF : σ → List Nat → Option σ) (getF : σ → Option (σ × List Nat)) :
    σ → List Op → Option (σ × List (List Nat))
  | s, [] => some (s, [])
  | s, Op.put r :: ops =>
    match putF s r with
    | none => none
    | some s1 => runOps putF getF s1 ops
  | s, Op.get :: ops =>
    match getF s with
    | none => none
    | some (s1, r) =>
      match runOps putF getF s1 ops with
      | none => none
      | some (s2, rs) => some (s2, r :: rs)

/-- The records sent by the `put` operations of a trace, in program order. -/
def sends : List Op → List (List Nat)
  | [] => []
  | Op.put r :: ops => r :: sends ops
  | Op.get :: ops => sends ops

/-- Generic history invariant of a bounded FIFO: if every put appends
`r.take sz` to the abstraction and every get removes its head, then over a
completed run the received records followed by the residue equal the initial
residue followed by everything sent. -/
theorem runOps_history {σ : Type} (putF : σ → List Nat → Option σ)
    (getF : σ → Option (σ × List Nat)) (inv : σ → Prop) (abs : σ → List (List Nat))
    (sz : Nat)
    (hput : ∀ s t r, inv s → putF s r = some t →
      inv t ∧ abs t = abs s ++ [r.take sz])
    (hget : ∀ s t r, inv s → getF s = some (t, r) →
      inv t ∧ abs s = r :: abs t) :
    ∀ (ops : List Op) (s u : σ) (rec : List (List Nat)), inv s →
      runOps putF getF s ops = some (u, rec) →
      inv u ∧ rec ++ abs u = abs s ++ (sends ops).map (fun r => r.take sz) := by
  intro ops
  induction ops with
  | nil =>
    intro s u rec hs h
    simp only [runOps] at h
    injection h with h
    have hu := congrArg Prod.fst h
    have hrec := congrArg Prod.snd h
    simp only at hu hrec
    subst hu hrec
    simpa [sends] using hs
  | cons op ops ih =>
    intro s u rec hs h
    cases op with
    | put r =>
      simp only [runOps] at h
      cases hp : putF s r with
      | none => rw [hp] at h; exact absurd h (by simp)
      | some s1 =>
        rw [hp] at h
        obtain ⟨hinv1, habs1⟩ := hput s s1 r hs hp
        obtain ⟨hinvu, habsu⟩ := ih s1 u rec hinv1 h
        refine ⟨hinvu, ?_⟩
        rw [habsu, habs1, sends]
        simp
    | get =>
      simp only [runOps] at h
      cases hg : getF s with
      | none => rw [hg] at h; exact absurd h (by simp)
      | some p =>
        obtain ⟨s1, r⟩ := p
        rw [hg] at h
        dsimp only at h
        cases hrun : runOps putF getF s1 ops with
        | none => rw [hrun] at h; exact absurd h (by simp)
        | some q =>
          obtain ⟨s2, rs⟩ := q
          rw [hrun] at h
          injection h with h
          have hu := congrArg Prod.fst h
          have hrec := congrArg Prod.snd h
          simp only at hu hrec
          subst hu hrec
          obtain ⟨hinv1, habs1⟩ := hget s s1 r hs hg
          obtain ⟨hinvu, habsu⟩ := ih s1 s2 rs hinv1 hrun
          refine ⟨hinvu, ?_⟩
          rw [List.cons_append, habsu, habs1, sends]
          simp

/-! ### Lock-free (SPSC) ring-buffer engine

`RingBufferLockFree` from `ring_buffer.cpp` / `ring_buffer.hpp`: atomic
`m_head`, `m_tail`, `m_internal_queue_length = m_queue_length + 1` (one
sentinel slot), and the flat slot region.  A completed `Put` publishes its
slot with a release store of `tail`; a completed `Get` publishes with a
release store of `head`; the sequential embedding orders the completed
operations (the release/acquire pairing makes the effects of each completed operation visible to the next). -/

structure LockFreeState where
  queueLength : Nat
  elementSize : Nat
  internalQueueLength : Nat
  head : Nat
  tail : Nat
  slots : List (List Nat)
deriving DecidableEq, Repr

/-- Embeds `RingBufferLockFree::Initialize` (ring_buffer.cpp 106-117):
`m_internal_queue_length = m_queue_length + 1`, `m_head.store(0)`,
`m_tail.store(0)`. -/
def lockFreeInit (q sz : Nat) : LockFreeState :=
  { queueLength := q, elementSize := sz, internalQueueLength := q + 1,
    head := 0, tail := 0,
    slots := List.replicate (q + 1) (List.replicate sz 0) }

/-- Embeds `RingBufferLockFree::Put` (ring_buffer.cpp 119-129): `next_tail =
incrementByOne(tail)`, busy-wait while `next_tail == m_head.load(acquire)`
(full), then `memcpy` into slot `current_tail` and release-store
`next_tail` to `m_tail`.  `none` while full (the busy-wait continues). -/
def lockFreePut (s : LockFreeState) (element : List Nat) : Option LockFreeState :=
  let nextTail := (s.tail + 1) % s.internalQueueLength
  if nextTail = s.head then none
  else
    some { s with
      slots := s.slots.set s.tail (element.take s.elementSize),
      tail := nextTail }

/-- Embeds `RingBufferLockFree::Get` (ring_buffer.cpp 131-140): busy-wait while
`current_head == m_tail.load(acquire)` (empty), then `memcpy` out of slot
`current_head` and release-store `incrementByOne(current_head)` to
`m_head`. -/
def lockFreeGet (s : LockFreeState) : Option (LockFreeState × List Nat) :=
  if s.head = s.tail then none
  else
    some ({ s with head := (s.head + 1) % s.internalQueueLength },
      slotBytes s.slots s.elementSize s.head)

/-- Number of queued records: `(tail + n - head) % n`. -/
def lfCount (s : LockFreeState) : Nat :=
  (s.tail + s.internalQueueLength - s.head) % s.internalQueueLength

/-- Records currently queued, oldest first. -/
def lockFreeContents (s : LockFreeState) : List (List Nat) :=
  cyc s.slots s.elementSize s.internalQueueLength s.head (lfCount s)

/-- Structural invariant of the lock-free engine established by
`Initialize` and preserved by `Put`/`Get`. -/
def LockFreeInv (s : LockFreeState) : Prop :=
  s.slots.length = s.internalQueueLength ∧ s.head < s.internalQueueLength ∧
    s.tail < s.internalQueueLength ∧ s.internalQueueLength = s.queueLength + 1

theorem lockFreeInit_inv (q sz : Nat) : LockFreeInv (lockFreeInit q sz) :=
  ⟨List.length_replicate _ _, Nat.succ_pos q, Nat.succ_pos q, rfl⟩

theorem lfTail_eq {s : LockFreeState} (hs : LockFreeInv s) :
    s.tail = (s.head + lfCount s) % s.internalQueueLength := by
  obtain ⟨hlen, hhead, htail, hint⟩ := hs
  unfold lfCount
  rw [Nat.add_mod_mod]
  have h : s.head + (s.tail + s.internalQueueLength - s.head)
      = s.tail + s.internalQueueLength := by omega
  rw [h, Nat.add_mod_right, Nat.mod_eq_of_lt htail]

theorem lfCount_lt {s : LockFreeState} (hs : LockFreeInv s) :
    lfCount s < s.internalQueueLength := by
  obtain ⟨hlen, hhead, htail, hint⟩ := hs
  exact Nat.mod_lt _ (by omega)

theorem lfCount_eq_zero_iff {s : LockFreeState} (hs : LockFreeInv s) :
    lfCount s = 0 ↔ s.head = s.tail := by
  obtain ⟨hlen, hhead, htail, hint⟩ := hs
  unfold lfCount
  have hn : 0 < s.internalQueueLength := by omega
  have hb : s.tail + s.internalQueueLength - s.head < 2 * s.internalQueueLength := by
    omega
  rw [mod_of_lt_two_mul hn hb]
  split_ifs <;> omega

theorem lfCount_full_iff {s : LockFreeState} (hs : LockFreeInv s) :
    lfCount s = s.queueLength ↔ (s.tail + 1) % s.internalQueueLength = s.head := by
  obtain ⟨hlen, hhead, htail, hint⟩ := hs
  unfold lfCount
  have hn : 0 < s.internalQueueLength := by omega
  have hb : s.tail + s.internalQueueLength - s.head < 2 * s.internalQueueLength := by
    omega
  have hb2 : s.tail + 1 < 2 * s.internalQueueLength := by omega
  rw [mod_of_lt_two_mul hn hb, mod_of_lt_two_mul hn hb2]
  split_ifs <;> omega

theorem lockFreePut_inv {s t : LockFreeState} {r : List Nat}
    (hs : LockFreeInv s) (h : lockFreePut s r = some t) :
    LockFreeInv t ∧ lockFreeContents t = lockFreeContents s ++ [r.take s.elementSize] ∧
      t.queueLength = s.queueLength ∧ t.elementSize = s.elementSize := by
  have htail_eq := lfTail_eq hs
  have hcnt_lt := lfCount_lt hs
  obtain ⟨hlen, hhead, htail, hint⟩ := hs
  unfold lockFreePut at h
  dsimp only at h
  split at h
  case isTrue => exact absurd h (by simp)
  case isFalse hguard =>
  injection h with h
  subst h
  have hn : 0 < s.internalQueueLength := by omega
  have hcount : lfCount { s with
      slots := s.slots.set s.tail (r.take s.elementSize),
      tail := (s.tail + 1) % s.internalQueueLength } = lfCount s + 1 := by
    show ((s.tail + 1) % s.internalQueueLength + s.internalQueueLength - s.head)
        % s.internalQueueLength
      = (s.tail + s.internalQueueLength - s.head) % s.internalQueueLength + 1
    rcases Nat.lt_or_ge (s.tail + 1) s.internalQueueLength with h1 | h1
    · rw [Nat.mod_eq_of_lt h1]
      have hg : s.tail + 1 ≠ s.head := by
        intro he
        exact hguard (by rw [Nat.mod_eq_of_lt h1]; exact he)
      have hb1 : s.tail + 1 + s.internalQueueLength - s.head
          < 2 * s.internalQueueLength := by omega
      have hb2 : s.tail + s.internalQueueLength - s.head
          < 2 * s.internalQueueLength := by omega
      rw [mod_of_lt_two_mul hn hb1, mod_of_lt_two_mul hn hb2]
      split_ifs <;> omega
    · have ht1 : s.tail + 1 = s.internalQueueLength := by omega
      have ha : (s.tail + 1) % s.internalQueueLength = 0 := by
        rw [ht1, Nat.mod_self]
      rw [ha]
      have hg : s.head ≠ 0 := by
        intro h0
        exact hguard (by rw [ha, h0])
      have hb1 : 0 + s.internalQueueLength - s.head < 2 * s.internalQueueLength := by
        omega
      have hb2 : s.tail + s.internalQueueLength - s.head
          < 2 * s.internalQueueLength := by omega
      rw [mod_of_lt_two_mul hn hb1, mod_of_lt_two_mul hn hb2]
      split_ifs <;> omega
  refine ⟨⟨by simpa using hlen, by simpa using hhead, ?_, by simpa using hint⟩, ?_, rfl, rfl⟩
  · show (s.tail + 1) % s.internalQueueLength < s.internalQueueLength
    exact Nat.mod_lt _ hn
  · show cyc (s.slots.set s.tail (r.take s.elementSize)) s.elementSize
        s.internalQueueLength s.head
        (lfCount { s with
          slots := s.slots.set s.tail (r.take s.elementSize),
          tail := (s.tail + 1) % s.internalQueueLength })
      = cyc s.slots s.elementSize s.internalQueueLength s.head (lfCount s)
        ++ [r.take s.elementSize]
    rw [hcount]
    conv_lhs => rw [htail_eq]
    exact cyc_enqueue s.slots s.elementSize s.internalQueueLength s.head
      (lfCount s) r hlen hcnt_lt

theorem lockFreeGet_inv {s t : LockFreeState} {r : List Nat}
    (hs : LockFreeInv s) (h : lockFreeGet s = some (t, r)) :
    LockFreeInv t ∧ lockFreeContents s = r :: lockFreeContents t ∧
      t.queueLength = s.queueLength ∧ t.elementSize = s.elementSize := by
  have hzero := lfCount_eq_zero_iff hs
  obtain ⟨hlen, hhead, htail, hint⟩ := hs
  unfold lockFreeGet at h
  split at h
  case isTrue => exact absurd h (by simp)
  case isFalse hguard =>
  injection h with h
  have ht := congrArg Prod.fst h
  have hr := congrArg Prod.snd h
  simp only at ht hr
  subst ht hr
  have hn : 0 < s.internalQueueLength := by omega
  have hne : lfCount s ≠ 0 := fun h0 => hguard (hzero.mp h0)
  have hcount : lfCount { s with head := (s.head + 1) % s.internalQueueLength }
      = lfCount s - 1 := by
    show (s.tail + s.internalQueueLength - (s.head + 1) % s.internalQueueLength)
        % s.internalQueueLength
      = (s.tail + s.internalQueueLength - s.head) % s.internalQueueLength - 1
    have hdn : s.tail + s.internalQueueLength - s.head ≠ s.internalQueueLength := by
      intro he
      exact hguard (by omega)
    rcases Nat.lt_or_ge (s.head + 1) s.internalQueueLength with h1 | h1
    · rw [Nat.mod_eq_of_lt h1]
      have hb1 : s.tail + s.internalQueueLength - (s.head + 1)
          < 2 * s.internalQueueLength := by omega
      have hb2 : s.tail + s.internalQueueLength - s.head
          < 2 * s.internalQueueLength := by omega
      rw [mod_of_lt_two_mul hn hb1, mod_of_lt_two_mul hn hb2]
      split_ifs <;> omega
    · have hh1 : s.head + 1 = s.internalQueueLength := by omega
      have ha : (s.head + 1) % s.internalQueueLength = 0 := by
        rw [hh1, Nat.mod_self]
      rw [ha]
      have hb1 : s.tail + s.internalQueueLength - 0 < 2 * s.internalQueueLength := by
        omega
      have hb2 : s.tail + s.internalQueueLength - s.head
          < 2 * s.internalQueueLength := by omega
      rw [mod_of_lt_two_mul hn hb1, mod_of_lt_two_mul hn hb2]
      split_ifs <;> omega
  refine ⟨⟨by simpa using hlen, ?_, by simpa using htail, by simpa using hint⟩, ?_, rfl, rfl⟩
  · show (s.head + 1) % s.internalQueueLength < s.internalQueueLength
    exact Nat.mod_lt _ hn
  · show cyc s.slots s.elementSize s.internalQueueLength s.head (lfCount s)
      = slotBytes s.slots s.elementSize s.head
        :: cyc s.slots s.elementSize s.internalQueueLength
          ((s.head + 1) % s.internalQueueLength)
          (lfCount { s with head := (s.head + 1) % s.internalQueueLength })
    rw [hcount]
    obtain ⟨c, hc⟩ : ∃ c, lfCount s = c + 1 := ⟨lfCount s - 1, by omega⟩
    rw [hc]
    have hdq := cyc_dequeue s.slots s.elementSize s.internalQueueLength s.head c
    rw [Nat.mod_eq_of_lt hhead] at hdq
    rw [hdq]
    simp only [Nat.add_sub_cancel]
    rw [cyc_start_mod]

/-- A completed history of locked-engine `Put`/`Get` calls. -/
def lockedRun : LockedState → List Op → Option (LockedState × List (List Nat)) :=
  runOps lockedPut lockedGet

/-- A completed history of lock-free `Put`/`Get` calls. -/
def lockFreeRun : LockFreeState → List Op → Option (LockFreeState × List (List Nat)) :=
  runOps lockFreePut lockFreeGet

theorem lockedRun_from_init {q sz : Nat} (hq : 0 < q) (ops : List Op)
    (u : LockedState) (rec : List (List Nat))
    (h : lockedRun (lockedInit q sz) ops = some (u, rec)) :
    (LockedInv u ∧ u.elementSize = sz ∧ u.queueLength = q) ∧
      rec ++ lockedContents u = (sends ops).map (fun r => r.take sz) := by
  have hist := runOps_history lockedPut lockedGet
    (fun s => LockedInv s ∧ s.elementSize = sz ∧ s.queueLength = q)
    lockedContents sz
    (by
      rintro s t r ⟨hsi, hse, hsq⟩ hp
      obtain ⟨hti, htc, htq, hte⟩ := lockedPut_inv hsi hp
      exact ⟨⟨hti, hte.trans hse, htq.trans hsq⟩, by rw [htc, hse]⟩)
    (by
      rintro s t r ⟨hsi, hse, hsq⟩ hg
      obtain ⟨hti, htc, htq, hte⟩ := lockedGet_inv hsi hg
      exact ⟨⟨hti, hte.trans hse, htq.trans hsq⟩, htc⟩)
    ops (lockedInit q sz) u rec ⟨lockedInit_inv hq, rfl, rfl⟩ h
  obtain ⟨hi, he⟩ := hist
  refine ⟨hi, ?_⟩
  rw [show lockedContents (lockedInit q sz) = [] from rfl] at he
  simpa using he

theorem lockFreeRun_from_init {q sz : Nat} (ops : List Op)
    (u : LockFreeState) (rec : List (List Nat))
    (h : lockFreeRun (lockFreeInit q sz) ops = some (u, rec)) :
    (LockFreeInv u ∧ u.elementSize = sz ∧ u.queueLength = q) ∧
      rec ++ lockFreeContents u = (sends ops).map (fun r => r.take sz) := by
  have hist := runOps_history lockFreePut lockFreeGet
    (fun s => LockFreeInv s ∧ s.elementSize = sz ∧ s.queueLength = q)
    lockFreeContents sz
    (by
      rintro s t r ⟨hsi, hse, hsq⟩ hp
      obtain ⟨hti, htc, htq, hte⟩ := lockFreePut_inv hsi hp
      exact ⟨⟨hti, hte.trans hse, htq.trans hsq⟩, by rw [htc, hse]⟩)
    (by
      rintro s t r ⟨hsi, hse, hsq⟩ hg
      obtain ⟨hti, htc, htq, hte⟩ := lockFreeGet_inv hsi hg
      exact ⟨⟨hti, hte.trans hse, htq.trans hsq⟩, htc⟩)
    ops (lockFreeInit q sz) u rec ⟨lockFreeInit_inv q sz, rfl, rfl⟩ h
  obtain ⟨hi, he⟩ := hist
  refine ⟨hi, ?_⟩
  have hinit : lockFreeContents (lockFreeInit q sz) = [] := by
    simp [lockFreeContents, lfCount, lockFreeInit, cyc, Nat.mod_self]
  rw [hinit] at he
  simpa using he

/-- C3: For every sequence of records r1..rn written by a single producer
and read by a single consumer (on either engine), the bytes of each
successfully received record equal the bytes of the corresponding sent record,
and the records are observed in the same relative order they were sent:
over any completed history, the received list is exactly the prefix of the
sent list of its length. -/
theorem spsc_fifo_round_trip (q sz : Nat) (ops : List Op) (hq : 0 < q)
    (hlen : ∀ r ∈ sends ops, r.length = sz) :
    (∀ u rec, lockedRun (lockedInit q sz) ops = some (u, rec) →
      rec = (sends ops).take rec.length) ∧
    (∀ u rec, lockFreeRun (lockFreeInit q sz) ops = some (u, rec) →
      rec = (sends ops).take rec.length) := by
  have hmap : (sends ops).map (fun r => r.take sz) = sends ops := by
    apply List.map_congr_left ?_ |>.trans (List.map_id _)
    intro r hr
    exact List.take_of_length_le (le_of_eq (hlen r hr))
  constructor
  · intro u rec h
    obtain ⟨-, he⟩ := lockedRun_from_init hq ops u rec h
    rw [hmap] at he
    rw [← he, List.take_left]
  · intro u rec h
    obtain ⟨-, he⟩ := lockFreeRun_from_init ops u rec h
    rw [hmap] at he
    rw [← he, List.take_left]

/-- C4: The locked engine with queue length Q maintains, after every
completed Put/Get from the initialized state: count ≤ Q (0 ≤ count holds in
ℕ), write_index and read_index in [0, Q), empty (no queued records) exactly
when count = 0 and full exactly when count = Q; a Put entered on a full
queue does not copy or mutate until count < Q holds (it is blocked:
`none`), and a Get entered on an empty queue does not copy until
count > 0. -/
theorem locked_engine_invariants (q sz : Nat) (ops : List Op)
    (u : LockedState) (rec : List (List Nat)) (hq : 0 < q)
    (h : lockedRun (lockedInit q sz) ops = some (u, rec)) :
    u.count ≤ q ∧ u.writeIndex < q ∧ u.readIndex < q ∧
      (lockedContents u = [] ↔ u.count = 0) ∧
      ((lockedContents u).length = q ↔ u.count = q) ∧
      (∀ r, lockedPut u r = none ↔ u.count = q) ∧
      (lockedGet u = none ↔ u.count = 0) := by
  obtain ⟨⟨⟨hlen, hcnt, hread, hwrite⟩, hse, hsq⟩, -⟩ :=
    lockedRun_from_init hq ops u rec h
  subst hsq
  have hql : (lockedContents u).length = u.count := cyc_length _ _ _ _ _
  refine ⟨hcnt, ?_, hread, ?_, ?_, ?_, ?_⟩
  · rw [hwrite]
    exact Nat.mod_lt _ (by omega)
  · rw [← List.length_eq_zero, hql]
  · rw [hql]
  · intro r
    unfold lockedPut
    split
    case isTrue hlt => simp; omega
    case isFalse hlt => simp; omega
  · unfold lockedGet
    split
    case isTrue hne => simp; omega
    case isFalse hne => simp; omega

/-- C5: The lock-free engine initialized with queue length Q uses
`internal_queue_length = Q + 1` slots (one sentinel), and after every
completed Put/Get: head and tail are in [0, Q+1), the queue is empty
exactly when head = tail, and full exactly when (tail+1) mod (Q+1) = head;
Put waits (is blocked) exactly while full and Get exactly while empty. -/
theorem lockfree_engine_invariants (q sz : Nat) (ops : List Op)
    (u : LockFreeState) (rec : List (List Nat))
    (h : lockFreeRun (lockFreeInit q sz) ops = some (u, rec)) :
    (lockFreeInit q sz).internalQueueLength = q + 1 ∧
      u.internalQueueLength = q + 1 ∧ u.head < q + 1 ∧ u.tail < q + 1 ∧
      (lockFreeContents u = [] ↔ u.head = u.tail) ∧
      ((lockFreeContents u).length = q ↔ (u.tail + 1) % (q + 1) = u.head) ∧
      (∀ r, lockFreePut u r = none ↔ (u.tail + 1) % (q + 1) = u.head) ∧
      (lockFreeGet u = none ↔ u.head = u.tail) := by
  obtain ⟨⟨hinv, hse, hsq⟩, -⟩ := lockFreeRun_from_init ops u rec h
  have hzero := lfCount_eq_zero_iff hinv
  have hfull := lfCount_full_iff hinv
  obtain ⟨hlen, hhead, htail, hint⟩ := hinv
  have hql : (lockFreeContents u).length = lfCount u := cyc_length _ _ _ _ _
  rw [hsq] at hint
  rw [hsq, hint] at hfull
  refine ⟨rfl, hint, hint ▸ hhead, hint ▸ htail, ?_, ?_, ?_, ?_⟩
  · rw [← List.length_eq_zero, hql, hzero]
  · rw [hql, hfull]
  · intro r
    unfold lockFreePut
    dsimp only
    rw [← hint]
    split
    case isTrue hfullg => simpa using hfullg
    case isFalse hfullg => simpa using hfullg
  · unfold lockFreeGet
    split
    case isTrue hg => simpa using hg
    case isFalse hg => simpa using hg

/-! ### Timed operations (ring_buffer.cpp of the timed revision, part_012)

`DurationUs` is `uint64_t` microseconds; `INFINITE_TIMEOUT` is its maximum
value.  The embeddings below model the finite-timeout branch
(`timeout_duration != pika::INFINITE_TIMEOUT`). -/

/-- Embeds `pika::INFINITE_TIMEOUT = std::numeric_limits<uint64_t>::max()`
(channel_interface.hpp 40-41). -/
def INFINITE_TIMEOUT : Nat := 2 ^ 64 - 1

/-- Index at which a busy-wait loop exits: the first `i` (starting at
`start`) with `cond i = false`, looking at most `fuel` iterations ahead;
`none` if the loop is still spinning after `fuel` iterations. -/
def firstFail (cond : Nat → Bool) : Nat → Nat → Option Nat
  | _, 0 => none
  | i, fuel + 1 => if cond i then firstFail cond (i + 1) fuel else some i

/-- Embeds `RingBufferLockFree::PushFront`, finite-timeout branch (part_012
214-233): `current_tail = m_tail.load(relaxed)`, `next_tail =
incrementByOne(current_tail)`; busy-wait `while (next_tail ==
m_head.load(acquire) && timer.GetElapsedDuration() < timeout_duration)`;
then — without inspecting why the loop exited — `memcpy` into slot
`current_tail`, release-store `next_tail` to `m_tail` and `return {}`.
`headAt i` is the value `m_head.load` returns at busy-wait iteration `i`
and `elapsedAt i` the timer reading there (the `Timer` class is not in the
sources; modelled from the spec: a stopwatch started at the call whose
microsecond reading is observed once per iteration).  `none` means the
call has not returned after `fuel` iterations. -/
def lockFreePushFrontTimed (s : LockFreeState) (element : List Nat)
    (timeout : Nat) (headAt elapsedAt : Nat → Nat) (fuel : Nat) :
    Option (LockFreeState × Option PikaErrorType) :=
  let currentTail := s.tail
  let nextTail := (currentTail + 1) % s.internalQueueLength
  match firstFail
      (fun i => decide (nextTail = headAt i) && decide (elapsedAt i < timeout))
      0 fuel with
  | none => none
  | some _ =>
    some ({ s with
        slots := s.slots.set currentTail (element.take s.elementSize),
        tail := nextTail }, none)

/-- Embeds `RingBufferLockFree::PopBack`, finite-timeout branch (part_012
235-254): busy-wait `while (current_head == m_tail.load(acquire) &&
timer.GetElapsedDuration() < timeout_duration)`; then unconditionally
`memcpy` out of slot `current_head`, release-store
`incrementByOne(current_head)` to `m_head` and `return {}`. -/
def lockFreePopBackTimed (s : LockFreeState) (timeout : Nat)
    (tailAt elapsedAt : Nat → Nat) (fuel : Nat) :
    Option (LockFreeState × Option PikaErrorType × List Nat) :=
  let currentHead := s.head
  match firstFail
      (fun i => decide (currentHead = tailAt i) && decide (elapsedAt i < timeout))
      0 fuel with
  | none => none
  | some _ =>
    some ({ s with head := (currentHead + 1) % s.internalQueueLength },
      none, slotBytes s.slots s.elementSize currentHead)

/-- Embeds `RingBufferLockProtected::PushFront`, finite-timeout branch (part_012
72-93): `LockedMutex::New(&m_mutex, timeout_duration)` — a timed mutex
acquisition whose failure (`lockAcquired = false`, `Mutex::LockTimed`
returning `ETIMEDOUT`) is returned to the caller as a `Timeout` error with
the engine state untouched.  Once the mutex is held,
`m_not_full_condition_variable.Wait(locked_mutex, count < queue_length)`
loops on the *untimed* `pthread_cond_wait` until the predicate holds
(synchronization_primitives.hpp 74-84); in an execution in which the
not-full predicate never becomes true the call never returns (`none`).
On a non-full queue the body is the same copy/advance/increment as the
untimed `Put`. -/
def lockedPushFrontTimed (s : LockedState) (element : List Nat)
    (lockAcquired : Bool) : Option (LockedState × Option PikaErrorType) :=
  if ¬lockAcquired then some (s, some PikaErrorType.Timeout)
  else if s.count < s.queueLength then
    some ({ s with
      slots := s.slots.set s.writeIndex (element.take s.elementSize),
      writeIndex := (s.writeIndex + 1) % s.queueLength,
      count := s.count + 1 }, none)
  else none

/-- Embeds `RingBufferLockProtected::PopBack`, finite-timeout branch (part_012
95-115): symmetric to `lockedPushFrontTimed`; the wait on
`m_not_empty_condition_variable` is untimed. -/
def lockedPopBackTimed (s : LockedState) (lockAcquired : Bool) :
    Option (LockedState × Option PikaErrorType × List Nat) :=
  if ¬lockAcquired then some (s, some PikaErrorType.Timeout, [])
  else if s.count ≠ 0 then
    some ({ s with
        readIndex := (s.readIndex + 1) % s.queueLength,
        count := s.count - 1 },
      none, slotBytes s.slots s.elementSize s.readIndex)
  else none

/-- C1: evaluation of the code at the failing input.  The claim — a
finite-timeout lock-free `Put` (resp. `Get`) on a queue that stays full
(resp. empty) for the whole timeout returns a *timeout* error, copies
nothing, does not advance `tail` (resp. `head`), and leaves the engine
unchanged — is violated by `RingBufferLockFree::PushFront`/`PopBack`: with
queue length 1 (two internal slots), a full queue (head 0, tail 1), a
3 µs timeout, the head pinned at 0 for the whole wait and the timer
advancing 1 µs per iteration, the `PushFront` busy-wait exits by timer, yet
the call copies the record into slot 1, advances `tail` to 0 = head
(the queue now reads as empty) and returns success (`none`, not
`Timeout`); symmetrically `PopBack` on an empty queue copies stale bytes
out of slot 0, advances `head` and returns success. -/
theorem lockfree_timed_put_get_ignore_timeout :
    (lockFreePushFrontTimed
        ⟨1, 1, 2, 0, 1, [[7], [9]]⟩ [5] 3 (fun _ => 0) (fun i => i) 10
      = some (⟨1, 1, 2, 0, 0, [[7], [5]]⟩, none)) ∧
    ((1 + 1) % 2 = 0) ∧
    ((⟨1, 1, 2, 0, 0, [[7], [5]]⟩ : LockFreeState) ≠ ⟨1, 1, 2, 0, 1, [[7], [9]]⟩) ∧
    ((none : Option PikaErrorType) ≠ some PikaErrorType.Timeout) ∧
    (lockFreePopBackTimed
        ⟨1, 1, 2, 0, 0, [[7], [9]]⟩ 3 (fun _ => 0) (fun i => i) 10
      = some (⟨1, 1, 2, 1, 0, [[7], [9]]⟩, none, [7])) := by
  refine ⟨by decide, by decide, by decide, by decide, by decide⟩

/-- C2 counterexample: on a full locked engine (queue length 1, count 1)
whose not-full predicate never becomes true, a finite-timeout `PushFront`
that does acquire the mutex in time never returns (`none`): it blocks in
the untimed `ConditionVariable::Wait` instead of returning the *timeout*
error the claim requires. -/
theorem locked_timed_wait_unbounded_counterexample :
    lockedPushFrontTimed ⟨1, 1, 0, 0, 1, [[9]]⟩ [5] true = none ∧
      (none : Option (LockedState × Option PikaErrorType))
        ≠ some (⟨1, 1, 0, 0, 1, [[9]]⟩, some PikaErrorType.Timeout) := by
  refine ⟨by decide, by decide⟩

/-- C2 amended: for locked-engine Put and Get with a finite timeout, the
timeout bounds only the mutex acquisition: if the mutex is not acquired
within the timeout the call returns a *timeout* error and leaves the
engine unchanged, but once the mutex is held the predicate wait on the
condition variable is unbounded (`ConditionVariable::Wait` loops on the
untimed `pthread_cond_wait`), so if the not-full (resp. not-empty)
predicate never becomes true the call blocks indefinitely instead of
returning a *timeout* error. -/
theorem locked_timed_timeout_bounds_only_mutex (s : LockedState) (r : List Nat) :
    (lockedPushFrontTimed s r false = some (s, some PikaErrorType.Timeout)) ∧
    (lockedPopBackTimed s false = some (s, some PikaErrorType.Timeout, [])) ∧
    (s.count = s.queueLength → lockedPushFrontTimed s r true = none) ∧
    (s.count = 0 → lockedPopBackTimed s true = none) := by
  refine ⟨rfl, rfl, ?_, ?_⟩
  · intro hfull
    unfold lockedPushFrontTimed
    simp [hfull]
  · intro hempty
    unfold lockedPopBackTimed
    simp [hempty]

theorem locked_timed_timeout_bounds_only_mutex_witness :
    lockedPushFrontTimed ⟨1, 1, 0, 0, 1, [[9]]⟩ [5] false
        = some (⟨1, 1, 0, 0, 1, [[9]]⟩, some PikaErrorType.Timeout) ∧
      lockedPushFrontTimed ⟨1, 1, 0, 0, 1, [[9]]⟩ [5] true = none ∧
      lockedPopBackTimed ⟨1, 1, 0, 0, 0, [[9]]⟩ true = none :=
  ⟨(locked_timed_timeout_bounds_only_mutex ⟨1, 1, 0, 0, 1, [[9]]⟩ [5]).1,
    (locked_timed_timeout_bounds_only_mutex ⟨1, 1, 0, 0, 1, [[9]]⟩ [5]).2.2.1 rfl,
    (locked_timed_timeout_bounds_only_mutex ⟨1, 1, 0, 0, 0, [[9]]⟩ [5]).2.2.2 rfl⟩

/-! ### Step-order model of the locked engine (C6)

The events a `RingBufferLockProtected::Put`/`Get` performs, in source
order.  `applyEvent` gives each event its effect on the engine state, so
that the transcription of the source can be checked against the state
semantics (`lockedPut`/`lockedGet`) by folding. -/

inductive RBEvent
  | lockAcquire
  | lockFailReturn
  | waitNotFull
  | waitNotEmpty
  | copyIn (slot : Nat) (bytes : List Nat)
  | copyOut (slot : Nat)
  | advanceWrite
  | incCount
  | advanceRead
  | decCount
  | unlock
  | signalNotEmpty
  | signalNotFull
deriving DecidableEq, Repr

/-- Effect of one event on the engine state (lock, wait and signal touch
only the mutex/condition variables, not the indices or slots). -/
def applyEvent (s : LockedState) : RBEvent → LockedState
  | RBEvent.copyIn i bytes =>
    { s with slots := s.slots.set i (bytes.take s.elementSize) }
  | RBEvent.advanceWrite =>
    { s with writeIndex := (s.writeIndex + 1) % s.queueLength }
  | RBEvent.incCount => { s with count := s.count + 1 }
  | RBEvent.advanceRead =>
    { s with readIndex := (s.readIndex + 1) % s.queueLength }
  | RBEvent.decCount => { s with count := s.count - 1 }
  | _ => s

/-- Events of `RingBufferLockProtected::Put` (ring_buffer.cpp 69-86) in
source order.  `lockOk = false` is the early-return path on a failed
`LockedMutex::New` (no index advanced, nothing signalled); on success the
scope block runs lock, wait, `memcpy` into slot `write_index`, index
advance, `++count`, then the `LockedMutex` destructor unlocks at the end
of the block, and only after that `not_empty_condition_variable.Signal()`
runs. -/
def lockedPutEvents (lockOk : Bool) (s : LockedState) (r : List Nat) :
    List RBEvent :=
  if lockOk then
    [RBEvent.lockAcquire, RBEvent.waitNotFull, RBEvent.copyIn s.writeIndex r,
      RBEvent.advanceWrite, RBEvent.incCount, RBEvent.unlock,
      RBEvent.signalNotEmpty]
  else [RBEvent.lockFailReturn]

/-- Events of `RingBufferLockProtected::Get` (ring_buffer.cpp 88-104) in
source order; the destructor unlock again precedes
`not_full_condition_variable.Signal()`. -/
def lockedGetEvents (lockOk : Bool) (s : LockedState) : List RBEvent :=
  if lockOk then
    [RBEvent.lockAcquire, RBEvent.waitNotEmpty, RBEvent.copyOut s.readIndex,
      RBEvent.advanceRead, RBEvent.decCount, RBEvent.unlock,
      RBEvent.signalNotFull]
  else [RBEvent.lockFailReturn]

/-- C6: Every successful locked-engine Put performs exactly: acquire the
mutex, wait on the not-full condition variable until count < queue_length,
copy record_size bytes into slot write_index, set write_index to
(write_index+1) mod queue_length, increment count, release the mutex, and
only then signal the not-empty condition variable — folding these events
reproduces exactly the `lockedPut` transition; the unlock strictly
precedes the signal; the signal occurs on every path that advanced an
index (and the failed-lock path advances nothing and signals nothing);
Get is symmetric. -/
theorem locked_put_get_step_order (s : LockedState) (r : List Nat)
    (hfull : s.count < s.queueLength) (hempty : s.count ≠ 0) :
    (lockedPutEvents true s r
        = [RBEvent.lockAcquire, RBEvent.waitNotFull,
            RBEvent.copyIn s.writeIndex r, RBEvent.advanceWrite,
            RBEvent.incCount, RBEvent.unlock, RBEvent.signalNotEmpty]) ∧
    (lockedPut s r = some ((lockedPutEvents true s r).foldl applyEvent s)) ∧
    (∃ pre mid post : List RBEvent, lockedPutEvents true s r
      = pre ++ RBEvent.unlock :: mid ++ RBEvent.signalNotEmpty :: post) ∧
    (∀ lockOk, RBEvent.advanceWrite ∈ lockedPutEvents lockOk s r →
      RBEvent.signalNotEmpty ∈ lockedPutEvents lockOk s r) ∧
    ((lockedPutEvents false s r).foldl applyEvent s = s) ∧
    (lockedGetEvents true s
        = [RBEvent.lockAcquire, RBEvent.waitNotEmpty,
            RBEvent.copyOut s.readIndex, RBEvent.advanceRead,
            RBEvent.decCount, RBEvent.unlock, RBEvent.signalNotFull]) ∧
    (lockedGet s = some ((lockedGetEvents true s).foldl applyEvent s,
        slotBytes s.slots s.elementSize s.readIndex)) ∧
    (∃ pre mid post : List RBEvent, lockedGetEvents true s
      = pre ++ RBEvent.unlock :: mid ++ RBEvent.signalNotFull :: post) ∧
    (∀ lockOk, RBEvent.advanceRead ∈ lockedGetEvents lockOk s →
      RBEvent.signalNotFull ∈ lockedGetEvents lockOk s) ∧
    ((lockedGetEvents false s).foldl applyEvent s = s) := by
  refine ⟨rfl, ?_, ?_, ?_, rfl, rfl, ?_, ?_, ?_, rfl⟩
  · unfold lockedPut lockedPutEvents
    rw [if_pos hfull]
    rfl
  · exact ⟨[RBEvent.lockAcquire, RBEvent.waitNotFull,
      RBEvent.copyIn s.writeIndex r, RBEvent.advanceWrite, RBEvent.incCount],
      [], [], rfl⟩
  · intro lockOk
    cases lockOk <;> simp [lockedPutEvents]
  · unfold lockedGet lockedGetEvents
    rw [if_pos hempty]
    rfl
  · exact ⟨[RBEvent.lockAcquire, RBEvent.waitNotEmpty,
      RBEvent.copyOut s.readIndex, RBEvent.advanceRead, RBEvent.decCount],
      [], [], rfl⟩
  · intro lockOk
    cases lockOk <;> simp [lockedGetEvents]

/-! ### Zero-copy release on the locked engine (C9)

Slot pointers are byte offsets from `m_ring_buffer` (base 0):
`getBufferSlot(index) = m_ring_buffer + index * m_element_size_in_bytes`. -/

def getBufferSlotAddr (s : LockedState) (i : Nat) : Nat := i * s.elementSize

/-- Embeds `RingBufferLockProtected::ReleaseFrontElementPtr` (part_012 138-158):
if the pointer is not `getBufferSlot(m_write_index)`, return a
`RingBufferError` before any mutation (and before the unlock — the mutex
stays held); otherwise advance `m_write_index`, `++m_count`, unlock,
signal not-empty. -/
def releaseFrontElementPtr (s : LockedState) (ptr : Nat) :
    Option PikaErrorType × LockedState :=
  if ptr ≠ getBufferSlotAddr s s.writeIndex then
    (some PikaErrorType.RingBufferError, s)
  else
    (none, { s with
      writeIndex := (s.writeIndex + 1) % s.queueLength,
      count := s.count + 1 })

/-- Embeds `RingBufferLockProtected::ReleaseBackElementPtr` (part_012 179-199):
symmetric on `m_read_index` / `--m_count` / signal not-full. -/
def releaseBackElementPtr (s : LockedState) (ptr : Nat) :
    Option PikaErrorType × LockedState :=
  if ptr ≠ getBufferSlotAddr s s.readIndex then
    (some PikaErrorType.RingBufferError, s)
  else
    (none, { s with
      readIndex := (s.readIndex + 1) % s.queueLength,
      count := s.count - 1 })

/-- C9: On the locked engine, releasing a zero-copy write (resp. read)
slot with a pointer that does not equal the current write (resp. read)
slot returns a ring-buffer error, and the write_index (resp. read_index)
and count are not advanced by the failed release: the state is returned
unchanged. -/
theorem zero_copy_release_mismatch (s : LockedState) (ptr : Nat) :
    (ptr ≠ getBufferSlotAddr s s.writeIndex →
      releaseFrontElementPtr s ptr = (some PikaErrorType.RingBufferError, s)) ∧
    (ptr ≠ getBufferSlotAddr s s.readIndex →
      releaseBackElementPtr s ptr = (some PikaErrorType.RingBufferError, s)) := by
  constructor
  · intro hne
    unfold releaseFrontElementPtr
    rw [if_pos hne]
  · intro hne
    unfold releaseBackElementPtr
    rw [if_pos hne]

theorem zero_copy_release_mismatch_witness :
    releaseFrontElementPtr ⟨4, 8, 2, 1, 1, [[], [], [], []]⟩ 0
        = (some PikaErrorType.RingBufferError, ⟨4, 8, 2, 1, 1, [[], [], [], []]⟩) ∧
      releaseBackElementPtr ⟨4, 8, 2, 1, 1, [[], [], [], []]⟩ 0
        = (some PikaErrorType.RingBufferError, ⟨4, 8, 2, 1, 1, [[], [], [], []]⟩) :=
  ⟨(zero_copy_release_mismatch ⟨4, 8, 2, 1, 1, [[], [], [], []]⟩ 0).1 (by decide),
    (zero_copy_release_mismatch ⟨4, 8, 2, 1, 1, [[], [], [], []]⟩ 0).2 (by decide)⟩

/-! ### Channel-header rendezvous (C7) -/

structure ChannelParameters where
  queueSize : Nat
  spscMode : Bool
deriving DecidableEq, Repr

structure StoredHeader where
  registered : Bool
  spscMode : Bool
  queueLength : Nat
  elementSize : Nat
  elementAlignment : Nat
deriving DecidableEq, Repr

/-- Embeds `PrepareHeader` (channel_internal.hpp 44-112): under the named
semaphore, if the header is not yet registered, placement-construct it,
record `single_producer_single_consumer_mode`, initialize the engine with
the requested parameters and set `registered = true` (the engine
`Initialize` on the freshly mapped aligned region succeeds); otherwise
validate the request against the stored `GetQueueLength()`,
`GetElementSizeInBytes()`, `GetElementAlignment()` and
`single_producer_single_consumer_mode`, returning a
`PikaErrorType::RingBufferError` on the first difference and touching
nothing. -/
def prepareHeader (params : ChannelParameters) (elementSize elementAlignment : Nat)
    (h : StoredHeader) : Option PikaErrorType × StoredHeader :=
  if ¬h.registered then
    (none,
      { registered := true, spscMode := params.spscMode,
        queueLength := params.queueSize, elementSize := elementSize,
        elementAlignment := elementAlignment })
  else if params.queueSize ≠ h.queueLength then
    (some PikaErrorType.RingBufferError, h)
  else if elementSize ≠ h.elementSize then
    (some PikaErrorType.RingBufferError, h)
  else if elementAlignment ≠ h.elementAlignment then
    (some PikaErrorType.RingBufferError, h)
  else if params.spscMode ≠ h.spscMode then
    (some PikaErrorType.RingBufferError, h)
  else (none, h)

/-- C7 counterexample: re-opening the registered header
(queue 4, record size 4, alignment 4, spsc false) with queue_size 8 fails,
but with `PikaErrorType.RingBufferError` — not the *channel* error
(`PikaErrorType.ChannelError`) the claim names.  The stored header is
returned unchanged. -/
theorem create_mismatch_error_type_counterexample :
    prepareHeader ⟨8, false⟩ 4 4 ⟨true, false, 4, 4, 4⟩
        = (some PikaErrorType.RingBufferError, ⟨true, false, 4, 4, 4⟩) ∧
      PikaErrorType.RingBufferError ≠ PikaErrorType.ChannelError := by
  refine ⟨by decide, by decide⟩

/-- C7 amended: creating an endpoint on a channel whose header is already
registered succeeds (with the stored header untouched) when the requested
parameters equal the stored ones, and fails with a *ring-buffer*
(`PikaErrorType.RingBufferError`) parameter-mismatch error when any of
queue_size, record_size, record_alignment, or spsc_mode differs; on such a
failure the stored header is unchanged, so the first endpoint remains
usable. -/
theorem create_param_validation (params : ChannelParameters)
    (es ea : Nat) (h : StoredHeader) (hreg : h.registered = true) :
    (params.queueSize = h.queueLength → es = h.elementSize →
      ea = h.elementAlignment → params.spscMode = h.spscMode →
      prepareHeader params es ea h = (none, h)) ∧
    ((params.queueSize ≠ h.queueLength ∨ es ≠ h.elementSize ∨
        ea ≠ h.elementAlignment ∨ params.spscMode ≠ h.spscMode) →
      prepareHeader params es ea h = (some PikaErrorType.RingBufferError, h)) := by
  constructor
  · intro h1 h2 h3 h4
    unfold prepareHeader
    rw [hreg]
    simp [h1, h2, h3, h4]
  · intro hdiff
    unfold prepareHeader
    rw [hreg]
    rcases hdiff with h1 | h2 | h3 | h4 <;> simp only [not_true, if_false] <;>
      split_ifs <;> simp_all

theorem create_param_validation_witness :
    prepareHeader ⟨4, false⟩ 4 4 ⟨true, false, 4, 4, 4⟩
        = (none, ⟨true, false, 4, 4, 4⟩) ∧
      prepareHeader ⟨4, false⟩ 8 4 ⟨true, false, 4, 4, 4⟩
        = (some PikaErrorType.RingBufferError, ⟨true, false, 4, 4, 4⟩) :=
  ⟨(create_param_validation ⟨4, false⟩ 4 4 ⟨true, false, 4, 4, 4⟩ rfl).1
      rfl rfl rfl rfl,
    (create_param_validation ⟨4, false⟩ 8 4 ⟨true, false, 4, 4, 4⟩ rfl).2
      (Or.inr (Or.inl (by decide)))⟩

/-! ### Slot-region offset (C8) -/

/-- Embeds `GetRingBufferSlotsOffset` (channel_header.hpp 35-44), with
`sizeof(ChannelHeader<RingBuffer>)` abstracted as `headerSize` (it is
implementation-defined, but the struct contains `std::atomic_uint64_t`
members, so any actual value is a positive multiple of 8).
`PIKA_ASSERT(element_alignment % 2 == 0)` restricts the domain to even
alignments; within it the code returns
`((sizeof(header) / alignment) + 1) * alignment` when the alignment is
smaller than the header, else the alignment itself. -/
def GetRingBufferSlotsOffset (headerSize a : Nat) : Nat :=
  if a < headerSize then (headerSize / a + 1) * a else a

/-- The slot-region offset as the spec describes it, stated in the words of
the spec for comparison with the `GetRingBufferSlotsOffset` of the source: the smallest
multiple of `record_alignment` that is ≥ `sizeof(header)`. -/
def leastAlignedOffset (headerSize a : Nat) : Nat :=
  a * ((headerSize + a - 1) / a)

theorem leastAlignedOffset_is_least (headerSize a : Nat) (ha : 0 < a)
    (hS : 0 < headerSize) :
    a ∣ leastAlignedOffset headerSize a ∧
      headerSize ≤ leastAlignedOffset headerSize a ∧
      ∀ m, a ∣ m → headerSize ≤ m → leastAlignedOffset headerSize a ≤ m := by
  unfold leastAlignedOffset
  refine ⟨Dvd.intro _ rfl, ?_, ?_⟩
  · have h0 := Nat.div_add_mod (headerSize + a - 1) a
    have hmod : (headerSize + a - 1) % a < a := Nat.mod_lt _ ha
    omega
  · intro m hdvd hle
    obtain ⟨k, rfl⟩ := hdvd
    have hc : (k + 1) * a = a * k + a := by ring
    have hlt : headerSize + a - 1 < (k + 1) * a := by
      rw [hc]; omega
    have hk : (headerSize + a - 1) / a ≤ k :=
      Nat.lt_succ_iff.mp ((Nat.div_lt_iff_lt_mul ha).mpr hlt)
    exact Nat.mul_le_mul_left a hk

/-- C8 counterexample: with a header of 128 bytes (any real
`sizeof(ChannelHeader<...>)` is a positive multiple of 8) and the
power-of-two record alignment 8 = 2^3 (which divides the header size and
passes the `element_alignment % 2 == 0` assertion), the code places the
slot region at offset 136, not at the smallest aligned offset
≥ sizeof(header), which is 128. -/
theorem slots_offset_not_least_counterexample :
    GetRingBufferSlotsOffset 128 8 = 136 ∧
      leastAlignedOffset 128 8 = 128 ∧
      (8 : Nat) = 2 ^ 3 ∧ (8 : Nat) ∣ 128 ∧ 128 % 8 = 0 ∧ 8 % 2 = 0 ∧
      GetRingBufferSlotsOffset 128 8 ≠ leastAlignedOffset 128 8 := by
  refine ⟨by decide, by decide, by decide, by decide, by decide, by decide, by decide⟩

/-- C8 amended: for every even record_alignment `a > 0` and header size
`S > 0`: when `a ≥ S` the slot region begins at offset `a` — the smallest
multiple of `a` that is ≥ `S` — so in particular when the alignment is
larger than the header size the offset equals the alignment; when
`a < S` and `a` does not divide `S` the offset is again the smallest
multiple of `a` ≥ `S`; but when `a < S` and `a` divides `S` the offset is
one alignment step beyond it: `S + a` instead of `S`. -/
theorem slots_offset_characterization (S a : Nat) (hS : 0 < S) (ha : 0 < a)
    (heven : 2 ∣ a) :
    (S ≤ a → GetRingBufferSlotsOffset S a = a ∧
      GetRingBufferSlotsOffset S a = leastAlignedOffset S a) ∧
    (a < S → ¬a ∣ S →
      GetRingBufferSlotsOffset S a = leastAlignedOffset S a) ∧
    (a < S → a ∣ S →
      GetRingBufferSlotsOffset S a = leastAlignedOffset S a + a ∧
        leastAlignedOffset S a = S) := by
  have hplus : S + a - 1 = (S - 1) + a := by omega
  have hdiv : (S + a - 1) / a = (S - 1) / a + 1 := by
    rw [hplus, Nat.add_div_right _ ha]
  have hsucc : S / a = (S - 1) / a + if a ∣ S then 1 else 0 := by
    have h1 : S = (S - 1) + 1 := by omega
    conv_lhs => rw [h1]
    rw [Nat.succ_div]
    congr 2
    rw [← h1]
  refine ⟨?_, ?_, ?_⟩
  · intro hle
    have hnot : ¬a < S := by omega
    have hsmall : (S - 1) / a = 0 := Nat.div_eq_of_lt (by omega)
    unfold GetRingBufferSlotsOffset leastAlignedOffset
    rw [if_neg hnot, hdiv, hsmall]
    omega
  · intro hlt hndvd
    have hif : (if a ∣ S then 1 else 0) = 0 := by simp [hndvd]
    unfold GetRingBufferSlotsOffset leastAlignedOffset
    rw [if_pos hlt, hdiv, hsucc, hif, Nat.add_zero, Nat.mul_comm]
  · intro hlt hdvd
    have hif : (if a ∣ S then 1 else 0) = 1 := by simp [hdvd]
    have hback : a * (S / a) = S := Nat.mul_div_cancel' hdvd
    constructor
    · unfold GetRingBufferSlotsOffset leastAlignedOffset
      rw [if_pos hlt, hdiv, hsucc, hif]
      ring
    · unfold leastAlignedOffset
      rw [hdiv]
      have h2 : (S - 1) / a + 1 = S / a := by omega
      rw [h2, hback]

theorem slots_offset_characterization_witness :
    (GetRingBufferSlotsOffset 24 32 = 32 ∧
      GetRingBufferSlotsOffset 24 32 = leastAlignedOffset 24 32) ∧
      GetRingBufferSlotsOffset 150 4 = leastAlignedOffset 150 4 ∧
      (GetRingBufferSlotsOffset 128 2 = leastAlignedOffset 128 2 + 2 ∧
        leastAlignedOffset 128 2 = 128) :=
  ⟨(slots_offset_characterization 24 32 (by decide) (by decide) (by decide)).1
      (by decide),
    (slots_offset_characterization 150 4 (by decide) (by decide) (by decide)).2.1
      (by decide) (by decide),
    (slots_offset_characterization 128 2 (by decide) (by decide) (by decide)).2.2
      (by decide) (by decide)⟩

/-! ### Timed mutex acquisition (C10) -/

/-- Linux `ETIMEDOUT`. -/
def ETIMEDOUT : Nat := 110

/-- Modular (wrap-around) reinterpretation of a `uint64_t` value as the signed
64-bit `tv_nsec` field (`static_cast<decltype(timespec::tv_nsec)>`,
modular conversion). -/
def toInt64 (d : Nat) : Int :=
  if d < 2 ^ 63 then (d : Int) else (d : Int) - 2 ^ 64

structure Timespec where
  tv_sec : Int
  tv_nsec : Int
deriving DecidableEq, Repr

/-- The `timespec` that `Mutex::LockTimed`
(synchronization_primitives.cpp 151-153) builds from the microsecond
duration: `timespec t { .tv_sec = 0, .tv_nsec =
static_cast<decltype(timespec::tv_nsec)>(duration) }` — no
microseconds-to-nanoseconds conversion, and the struct is handed to
`pthread_mutex_timedlock`, which interprets it as an absolute
CLOCK_REALTIME deadline. -/
def lockTimedTimespec (d : Nat) : Timespec :=
  { tv_sec := 0, tv_nsec := toInt64 d }

/-- Mapping of the `pthread_mutex_timedlock` return code
(synchronization_primitives.cpp 158-169): `ETIMEDOUT` becomes the distinct
`Timeout` error kind, any other nonzero code a `SyncPrimitiveError`, and 0
success. -/
def lockTimedResult (rc : Nat) : Option PikaErrorType :=
  if rc = ETIMEDOUT then some PikaErrorType.Timeout
  else if rc ≠ 0 then some PikaErrorType.SyncPrimitiveError
  else none

/-- The absolute deadline, in nanoseconds since the epoch, that the kernel
reads from a `timespec`. -/
def timespecDeadlineNs (t : Timespec) : Int :=
  t.tv_sec * 1000000000 + t.tv_nsec

/-- C10: For every finite timeout duration d (µs), `Mutex::LockTimed`
passes `pthread_mutex_timedlock` a timespec with tv_sec = 0 and tv_nsec =
d (exactly `d` for every `d` representable in the signed `tv_nsec`, i.e.
d < 2^63; larger values are reinterpreted modulo 2^64), with no
microseconds-to-nanoseconds conversion and used as an absolute deadline:
for every positive current clock value the effective deadline differs from
now + d microseconds.  Only `ETIMEDOUT` maps to the distinct `Timeout`
error kind; other failures map to `SyncPrimitiveError`. -/
theorem lock_timed_raw_duration_as_deadline (d : Nat)
    (hfin : d ≠ INFINITE_TIMEOUT) :
    (lockTimedTimespec d).tv_sec = 0 ∧
    (lockTimedTimespec d).tv_nsec = toInt64 d ∧
    (d < 2 ^ 63 → (lockTimedTimespec d).tv_nsec = (d : Int)) ∧
    (∀ now : Nat, 0 < now →
      timespecDeadlineNs (lockTimedTimespec d) ≠ (now : Int) + 1000 * (d : Int)) ∧
    lockTimedResult ETIMEDOUT = some PikaErrorType.Timeout ∧
    (∀ rc : Nat, rc ≠ 0 → rc ≠ ETIMEDOUT →
      lockTimedResult rc = some PikaErrorType.SyncPrimitiveError) ∧
    lockTimedResult 0 = none := by
  refine ⟨rfl, rfl, ?_, ?_, by decide, ?_, by decide⟩
  · intro hlt
    show toInt64 d = (d : Int)
    unfold toInt64
    rw [if_pos hlt]
  · intro now hnow
    show (0 : Int) * 1000000000 + toInt64 d ≠ (now : Int) + 1000 * (d : Int)
    unfold toInt64
    split_ifs <;> omega
  · intro rc h0 hto
    unfold lockTimedResult
    rw [if_neg hto, if_pos h0]

theorem lock_timed_raw_duration_as_deadline_witness :
    (5 : Nat) ≠ INFINITE_TIMEOUT ∧
      (lockTimedTimespec 5).tv_sec = 0 ∧
      (lockTimedTimespec 5).tv_nsec = (5 : Int) ∧
      timespecDeadlineNs (lockTimedTimespec 5) ≠ (1 : Int) + 1000 * 5 ∧
      lockTimedResult 22 = some PikaErrorType.SyncPrimitiveError :=
  ⟨by decide,
    (lock_timed_raw_duration_as_deadline 5 (by decide)).1,
    (lock_timed_raw_duration_as_deadline 5 (by decide)).2.2.1 (by decide),
    (lock_timed_raw_duration_as_deadline 5 (by decide)).2.2.2.1 1 (by decide),
    (lock_timed_raw_duration_as_deadline 5 (by decide)).2.2.2.2.2.1 22
      (by decide) (by decide)⟩

theorem spsc_fifo_round_trip_witness :
    (0 : Nat) < 2 ∧
      (∀ r ∈ sends [Op.put [3], Op.put [4], Op.get, Op.get], r.length = 1) ∧
      lockedRun (lockedInit 2 1) [Op.put [3], Op.put [4], Op.get, Op.get]
        = some (⟨2, 1, 0, 0, 0, [[3], [4]]⟩, [[3], [4]]) ∧
      lockFreeRun (lockFreeInit 2 1) [Op.put [3], Op.put [4], Op.get, Op.get]
        = some (⟨2, 1, 3, 2, 2, [[3], [4], [0]]⟩, [[3], [4]]) ∧
      [[3], [4]] = (sends [Op.put [3], Op.put [4], Op.get, Op.get]).take 2 :=
  ⟨by decide, by decide, by decide, by decide,
    (spsc_fifo_round_trip 2 1 [Op.put [3], Op.put [4], Op.get, Op.get]
        (by decide) (by decide)).1
      ⟨2, 1, 0, 0, 0, [[3], [4]]⟩ [[3], [4]] (by decide)⟩

theorem locked_engine_invariants_witness :
    (0 : Nat) < 2 ∧
      ((⟨2, 1, 0, 0, 0, [[3], [4]]⟩ : LockedState).count ≤ 2 ∧
        (⟨2, 1, 0, 0, 0, [[3], [4]]⟩ : LockedState).writeIndex < 2 ∧
        (⟨2, 1, 0, 0, 0, [[3], [4]]⟩ : LockedState).readIndex < 2 ∧
        (lockedContents ⟨2, 1, 0, 0, 0, [[3], [4]]⟩ = [] ↔
          (⟨2, 1, 0, 0, 0, [[3], [4]]⟩ : LockedState).count = 0) ∧
        ((lockedContents ⟨2, 1, 0, 0, 0, [[3], [4]]⟩).length = 2 ↔
          (⟨2, 1, 0, 0, 0, [[3], [4]]⟩ : LockedState).count = 2) ∧
        (∀ r, lockedPut ⟨2, 1, 0, 0, 0, [[3], [4]]⟩ r = none ↔
          (⟨2, 1, 0, 0, 0, [[3], [4]]⟩ : LockedState).count = 2) ∧
        (lockedGet ⟨2, 1, 0, 0, 0, [[3], [4]]⟩ = none ↔
          (⟨2, 1, 0, 0, 0, [[3], [4]]⟩ : LockedState).count = 0)) :=
  ⟨by decide,
    locked_engine_invariants 2 1 [Op.put [3], Op.put [4], Op.get, Op.get]
      ⟨2, 1, 0, 0, 0, [[3], [4]]⟩ [[3], [4]] (by decide) (by decide)⟩

theorem lockfree_engine_invariants_witness :
    (lockFreeInit 2 1).internalQueueLength = 2 + 1 ∧
      (⟨2, 1, 3, 2, 2, [[3], [4], [0]]⟩ : LockFreeState).internalQueueLength
        = 2 + 1 ∧
      (⟨2, 1, 3, 2, 2, [[3], [4], [0]]⟩ : LockFreeState).head < 2 + 1 ∧
      (⟨2, 1, 3, 2, 2, [[3], [4], [0]]⟩ : LockFreeState).tail < 2 + 1 ∧
      (lockFreeContents ⟨2, 1, 3, 2, 2, [[3], [4], [0]]⟩ = [] ↔
        (⟨2, 1, 3, 2, 2, [[3], [4], [0]]⟩ : LockFreeState).head
          = (⟨2, 1, 3, 2, 2, [[3], [4], [0]]⟩ : LockFreeState).tail) ∧
      ((lockFreeContents ⟨2, 1, 3, 2, 2, [[3], [4], [0]]⟩).length = 2 ↔
        ((⟨2, 1, 3, 2, 2, [[3], [4], [0]]⟩ : LockFreeState).tail + 1) % (2 + 1)
          = (⟨2, 1, 3, 2, 2, [[3], [4], [0]]⟩ : LockFreeState).head) ∧
      (∀ r, lockFreePut ⟨2, 1, 3, 2, 2, [[3], [4], [0]]⟩ r = none ↔
        ((⟨2, 1, 3, 2, 2, [[3], [4], [0]]⟩ : LockFreeState).tail + 1) % (2 + 1)
          = (⟨2, 1, 3, 2, 2, [[3], [4], [0]]⟩ : LockFreeState).head) ∧
      (lockFreeGet ⟨2, 1, 3, 2, 2, [[3], [4], [0]]⟩ = none ↔
        (⟨2, 1, 3, 2, 2, [[3], [4], [0]]⟩ : LockFreeState).head
          = (⟨2, 1, 3, 2, 2, [[3], [4], [0]]⟩ : LockFreeState).tail) :=
  lockfree_engine_invariants 2 1 [Op.put [3], Op.put [4], Op.get, Op.get]
    ⟨2, 1, 3, 2, 2, [[3], [4], [0]]⟩ [[3], [4]] (by decide)

theorem locked_put_get_step_order_witness :
    (lockedPutEvents true ⟨2, 1, 1, 0, 1, [[5], [0]]⟩ [9]
        = [RBEvent.lockAcquire, RBEvent.waitNotFull, RBEvent.copyIn 1 [9],
            RBEvent.advanceWrite, RBEvent.incCount, RBEvent.unlock,
            RBEvent.signalNotEmpty]) ∧
      (lockedPut ⟨2, 1, 1, 0, 1, [[5], [0]]⟩ [9]
        = some ((lockedPutEvents true ⟨2, 1, 1, 0, 1, [[5], [0]]⟩ [9]).foldl
            applyEvent ⟨2, 1, 1, 0, 1, [[5], [0]]⟩)) ∧
      (∃ pre mid post : List RBEvent,
        lockedPutEvents true ⟨2, 1, 1, 0, 1, [[5], [0]]⟩ [9]
          = pre ++ RBEvent.unlock :: mid ++ RBEvent.signalNotEmpty :: post) ∧
      (∀ lockOk, RBEvent.advanceWrite
          ∈ lockedPutEvents lockOk ⟨2, 1, 1, 0, 1, [[5], [0]]⟩ [9] →
        RBEvent.signalNotEmpty
          ∈ lockedPutEvents lockOk ⟨2, 1, 1, 0, 1, [[5], [0]]⟩ [9]) ∧
      ((lockedPutEvents false ⟨2, 1, 1, 0, 1, [[5], [0]]⟩ [9]).foldl
          applyEvent ⟨2, 1, 1, 0, 1, [[5], [0]]⟩ = ⟨2, 1, 1, 0, 1, [[5], [0]]⟩) ∧
      (lockedGetEvents true ⟨2, 1, 1, 0, 1, [[5], [0]]⟩
        = [RBEvent.lockAcquire, RBEvent.waitNotEmpty, RBEvent.copyOut 0,
            RBEvent.advanceRead, RBEvent.decCount, RBEvent.unlock,
            RBEvent.signalNotFull]) ∧
      (lockedGet ⟨2, 1, 1, 0, 1, [[5], [0]]⟩
        = some ((lockedGetEvents true ⟨2, 1, 1, 0, 1, [[5], [0]]⟩).foldl
            applyEvent ⟨2, 1, 1, 0, 1, [[5], [0]]⟩,
          slotBytes [[5], [0]] 1 0)) ∧
      (∃ pre mid post : List RBEvent,
        lockedGetEvents true ⟨2, 1, 1, 0, 1, [[5], [0]]⟩
          = pre ++ RBEvent.unlock :: mid ++ RBEvent.signalNotFull :: post) ∧
      (∀ lockOk, RBEvent.advanceRead
          ∈ lockedGetEvents lockOk ⟨2, 1, 1, 0, 1, [[5], [0]]⟩ →
        RBEvent.signalNotFull
          ∈ lockedGetEvents lockOk ⟨2, 1, 1, 0, 1, [[5], [0]]⟩) ∧
      ((lockedGetEvents false ⟨2, 1, 1, 0, 1, [[5], [0]]⟩).foldl
          applyEvent ⟨2, 1, 1, 0, 1, [[5], [0]]⟩ = ⟨2, 1, 1, 0, 1, [[5], [0]]⟩) :=
  locked_put_get_step_order ⟨2, 1, 1, 0, 1, [[5], [0]]⟩ [9]
    (by decide) (by decide)

end Pika

